import Mathlib

/-!
Verification development for the SolanaTokenSniper token-lifecycle monitoring
engine.  The definitions below are a shallow embedding of the TypeScript
source: the SQLite-backed `DatabaseService` (part_002) becomes a list of
records with primary-key semantics, the `TokenMonitorService` operations
(token-monitor.service.ts, first variant) become pure functions that take the
outcomes of the external calls (price lookup, rug check, dev-sold check, swap
success) as explicit arguments, and the in-flight trade counter of the entry
point (part_000 / part_001) becomes a small labelled transition system.
Prices are modelled as rationals; JavaScript `null` becomes `Option`.
-/

namespace SolanaTokenSniper

/-! ## Trade dispatcher in-flight counter (part_000 / part_001)

`initializeTelegramHandler` installs `onTokenReceived`, which rejects the
event when `activeTransactions >= MAX_CONCURRENT`, otherwise increments the
counter, runs `processTransaction`, and decrements exactly once in a
`.finally` on both the success and the failure path.  A state records the
counter value together with the number of started-but-unfinished dispatches;
a `dispatchDone` event can only occur when such a dispatch exists, so it is a
no-op on states with no dispatch in flight. -/

structure TxState where
  activeTransactions : Int
  inflight : Nat
  deriving DecidableEq, Repr

inductive TxEvent where
  | tokenReceived
  | dispatchDone (success : Bool)
  deriving DecidableEq, Repr

def txStep (maxConcurrent : Nat) (s : TxState) : TxEvent → TxState
  | TxEvent.tokenReceived =>
      if s.activeTransactions ≥ (maxConcurrent : Int) then s
      else { activeTransactions := s.activeTransactions + 1, inflight := s.inflight + 1 }
  | TxEvent.dispatchDone _ =>
      if s.inflight = 0 then s
      else { activeTransactions := s.activeTransactions - 1, inflight := s.inflight - 1 }

def txInit : TxState := { activeTransactions := 0, inflight := 0 }

def txRun (maxConcurrent : Nat) (events : List TxEvent) : TxState :=
  events.foldl (txStep maxConcurrent) txInit

def txInv (maxConcurrent : Nat) (s : TxState) : Prop :=
  s.activeTransactions = (s.inflight : Int) ∧ s.inflight ≤ maxConcurrent

theorem txStep_inv (maxConcurrent : Nat) (s : TxState) (e : TxEvent)
    (h : txInv maxConcurrent s) : txInv maxConcurrent (txStep maxConcurrent s e) := by
  obtain ⟨h1, h2⟩ := h
  cases e with
  | tokenReceived =>
      by_cases hge : s.activeTransactions ≥ (maxConcurrent : Int)
      · simp only [txStep, if_pos hge]
        exact ⟨h1, h2⟩
      · simp only [txStep, if_neg hge]
        rw [h1] at hge
        refine ⟨?_, ?_⟩
        · show s.activeTransactions + 1 = ((s.inflight + 1 : Nat) : Int)
          rw [h1]; push_cast; ring
        · show s.inflight + 1 ≤ maxConcurrent
          omega
  | dispatchDone ok =>
      by_cases h0 : s.inflight = 0
      · simp only [txStep, if_pos h0]
        exact ⟨h1, h2⟩
      · simp only [txStep, if_neg h0]
        refine ⟨?_, ?_⟩
        · show s.activeTransactions - 1 = ((s.inflight - 1 : Nat) : Int)
          rw [h1]; omega
        · show s.inflight - 1 ≤ maxConcurrent
          omega

theorem txFold_inv (maxConcurrent : Nat) (events : List TxEvent) (s : TxState)
    (h : txInv maxConcurrent s) :
    txInv maxConcurrent (events.foldl (txStep maxConcurrent) s) := by
  induction events generalizing s with
  | nil => exact h
  | cons e es ih => exact ih _ (txStep_inv _ _ _ h)

theorem txRun_inv (maxConcurrent : Nat) (events : List TxEvent) :
    txInv maxConcurrent (txRun maxConcurrent events) :=
  txFold_inv maxConcurrent events txInit ⟨rfl, Nat.zero_le _⟩

/-- Claim C1: under any interleaving of token-received events and dispatch
completions (successes or failures), the in-flight trade counter
`activeTransactions` never goes negative and never exceeds the configured cap
`MAX_CONCURRENT`; a token-received event arriving when the counter equals the
cap leaves the state unchanged (rejected without incrementing), and a dispatch
completion decrements identically on the success and the failure path. -/
theorem c1_inflight_counter_bounded (maxConcurrent : Nat) (events : List TxEvent) :
    (0 ≤ (txRun maxConcurrent events).activeTransactions ∧
      (txRun maxConcurrent events).activeTransactions ≤ (maxConcurrent : Int)) ∧
    (∀ n : Nat, txStep maxConcurrent ⟨(maxConcurrent : Int), n⟩ TxEvent.tokenReceived =
      ⟨(maxConcurrent : Int), n⟩) ∧
    (∀ s : TxState, ∀ b b' : Bool,
      txStep maxConcurrent s (TxEvent.dispatchDone b) =
        txStep maxConcurrent s (TxEvent.dispatchDone b')) := by
  refine ⟨?_, ?_, ?_⟩
  · obtain ⟨h1, h2⟩ := txRun_inv maxConcurrent events
    constructor
    · rw [h1]; exact_mod_cast Nat.zero_le _
    · rw [h1]; exact_mod_cast h2
  · intro n
    unfold txStep
    simp
  · intro s b b'
    rfl

/-! ## Persistent token store (part_002, `DatabaseService`)

The SQLite table `tokens` has `tokenAddress` as PRIMARY KEY; we model the
store as a list of records, with `addToken` implementing
`INSERT OR REPLACE` and lookups implementing the SQL queries.  Prices are
rationals, timestamps are naturals (`Date.now()` values are passed in
explicitly as `now`). -/

inductive Status where
  | active
  | inactive
  deriving DecidableEq, Repr

structure TokenTrack where
  tokenAddress : String
  timestamp : Nat
  price : ℚ
  lastCheck : Nat
  status : Status
  deriving DecidableEq, Repr

abbrev Store := List TokenTrack

def dbGetToken (s : Store) (a : String) : Option TokenTrack :=
  s.find? (fun r => r.tokenAddress == a)

def dbAddToken (s : Store) (t : TokenTrack) : Store :=
  if s.any (fun r => r.tokenAddress == t.tokenAddress) then
    s.map (fun r => if r.tokenAddress == t.tokenAddress then t else r)
  else s ++ [t]

def dbUpdateTokenStatus (s : Store) (a : String) (st : Status) (now : Nat) : Store :=
  s.map (fun r =>
    if r.tokenAddress == a then { r with status := st, lastCheck := now } else r)

def dbUpdateTokenPrice (s : Store) (a : String) (p : ℚ) (now : Nat) : Store :=
  s.map (fun r =>
    if r.tokenAddress == a then { r with price := p, lastCheck := now } else r)

def dbGetActiveTokens (s : Store) : List TokenTrack :=
  s.filter (fun r => r.status == Status.active)

def dbCleanupOldTokens (s : Store) (cutoff : Nat) : Store :=
  s.filter (fun r => !(decide (r.lastCheck < cutoff) && r.status == Status.inactive))

/-! ## Monitor operations (token-monitor.service.ts, first variant)

External calls appear as explicit arguments: `rawPrice` is the value the
Jupiter price endpoint would yield for the token (`none` for a request error
or a missing field), `rug` is the outcome of `getRugCheckConfirmed`
(`Except.error` when the call throws), `devSold` the outcome of
`checkDevSold`, and `sellOk` whether a `createSwapTransaction` sell call
succeeds.  Trade dispatches (calls into `createSwapTransaction`) are recorded
as a list of `Trade` events. -/

structure Config where
  simulation_mode : Bool
  deriving DecidableEq, Repr

inductive Trade where
  | buy (tokenAddress : String)
  | sell (tokenAddress : String)
  deriving DecidableEq, Repr

/-- `getCurrentPrice` returns `response.data?.data?.[tokenAddress]?.price || null`:
a missing price or a request error yields `null`, and a price of `0` is falsy
in JavaScript, so it is also coerced to `null`. -/
def getCurrentPrice (rawPrice : Option ℚ) : Option ℚ :=
  match rawPrice with
  | some p => if p = 0 then none else some p
  | none => none

/-- `TokenMonitorService.addToken`: builds a record with
`timestamp = lastCheck = Date.now()` and `status = 'active'` and stores it. -/
def monitorAddToken (s : Store) (a : String) (p : ℚ) (now : Nat) : Store :=
  dbAddToken s
    { tokenAddress := a, timestamp := now, price := p, lastCheck := now,
      status := Status.active }

/-- `TokenMonitorService.buyToken`: dispatches `createSwapTransaction(null,
tokenAddress)` unconditionally (errors are caught and logged); it does not
consult the configuration. -/
def buyToken (cfg : Config) (a : String) : List Trade := [Trade.buy a]

/-- `TokenMonitorService.checkToken`: on a non-null current price, update the
stored price, then compare against the snapshot row's `price` and dispatch a
buy past the 200% threshold; independently mark the token inactive when the
dev-sold check fires. -/
def checkToken (cfg : Config) (s : Store) (t : TokenTrack) (rawPrice : Option ℚ)
    (devSold : Bool) (now : Nat) : Store × List Trade :=
  let step1 : Store × List Trade :=
    match getCurrentPrice rawPrice with
    | none => (s, [])
    | some currentPrice =>
        let s1 := dbUpdateTokenPrice s t.tokenAddress currentPrice now
        if (currentPrice - t.price) / t.price * 100 > 200 then
          (s1, buyToken cfg t.tokenAddress)
        else (s1, [])
  if devSold then
    (dbUpdateTokenStatus step1.1 t.tokenAddress Status.inactive now, step1.2)
  else step1

/-- Body of the monitoring loop: run `checkToken` on a snapshot row against
the current store, accumulating the dispatched trades. -/
def pollStep (cfg : Config) (priceOf : String → Option ℚ)
    (devSoldOf : String → Bool) (now : Nat) (acc : Store × List Trade)
    (t : TokenTrack) : Store × List Trade :=
  let r := checkToken cfg acc.1 t (priceOf t.tokenAddress)
    (devSoldOf t.tokenAddress) now
  (r.1, acc.2 ++ r.2)

/-- One tick of `startMonitoring`'s interval: read the active tokens once,
then run `checkToken` on each snapshot row in order. -/
def pollSweep (cfg : Config) (s : Store) (priceOf : String → Option ℚ)
    (devSoldOf : String → Bool) (now : Nat) : Store × List Trade :=
  (dbGetActiveTokens s).foldl (pollStep cfg priceOf devSoldOf now) (s, [])

/-- `TokenMonitorService.handleNewTokenFromWebsocket`: reject missing or empty
mints, skip tokens that already have a record, treat a rug-check exception or
a failed rug check as a gate failure, and enroll only when the price lookup
yields a non-null price. -/
def handleNewTokenFromWebsocket (s : Store) (mint : Option String)
    (rug : Except Unit Bool) (rawPrice : Option ℚ) (now : Nat) : Store :=
  match mint with
  | none => s
  | some a =>
    if a = "" then s
    else if (dbGetToken s a).isSome then s
    else
      match rug with
      | Except.error _ => s
      | Except.ok passed =>
        if !passed then s
        else
          match getCurrentPrice rawPrice with
          | none => s
          | some p => monitorAddToken s a p now

/-- `TokenMonitorService.setCorrectToken`: sweep the active tokens, selling
every one whose address differs from the designated token (on success the row
is marked inactive; a throwing sell leaves it untouched and the loop
continues), then, if the designated token has no record and its price lookup
succeeds, enroll it and buy it.  `sweepStep` is the loop body: the sell is
dispatched for every active token other than the designated one, and only a
successful sell reaches the status update. -/
def sweepStep (x : String) (sellOk : String → Bool) (now : Nat)
    (acc : Store × List Trade) (t : TokenTrack) : Store × List Trade :=
  if t.tokenAddress ≠ x then
    if sellOk t.tokenAddress then
      (dbUpdateTokenStatus acc.1 t.tokenAddress Status.inactive now,
        acc.2 ++ [Trade.sell t.tokenAddress])
    else (acc.1, acc.2 ++ [Trade.sell t.tokenAddress])
  else acc

/-- Tail of `setCorrectToken` after the sell sweep: if the designated token
still has no record and its price lookup succeeds, enroll it and buy it. -/
def correctFinish (cfg : Config) (x : String) (rawPrice : Option ℚ)
    (now : Nat) (swept : Store × List Trade) : Store × List Trade :=
  match dbGetToken swept.1 x with
  | some _ => swept
  | none =>
    match getCurrentPrice rawPrice with
    | none => swept
    | some p => (monitorAddToken swept.1 x p now, swept.2 ++ buyToken cfg x)

def setCorrectToken (cfg : Config) (s : Store) (x : String)
    (sellOk : String → Bool) (rawPrice : Option ℚ) (now : Nat) :
    Store × List Trade :=
  correctFinish cfg x rawPrice now
    ((dbGetActiveTokens s).foldl (sweepStep x sellOk now) (s, []))

/-- `processTransaction` (part_001): reject an empty address, dispatch no
swap in simulation mode, otherwise dispatch the buy swap. -/
def processTransaction (cfg : Config) (tokenAddress : String) : List Trade :=
  if tokenAddress = "" then []
  else if cfg.simulation_mode then []
  else [Trade.buy tokenAddress]

/-! ## System operations and reachable stores -/

inductive Op where
  | discover (mint : Option String) (rug : Except Unit Bool)
      (rawPrice : Option ℚ) (now : Nat)
  | poll (priceOf : String → Option ℚ) (devSoldOf : String → Bool) (now : Nat)
  | correct (x : String) (sellOk : String → Bool) (rawPrice : Option ℚ)
      (now : Nat)
  | cleanup (cutoff : Nat)

def applyOp (cfg : Config) (s : Store) : Op → Store
  | Op.discover mint rug rawPrice now =>
      handleNewTokenFromWebsocket s mint rug rawPrice now
  | Op.poll priceOf devSoldOf now => (pollSweep cfg s priceOf devSoldOf now).1
  | Op.correct x sellOk rawPrice now =>
      (setCorrectToken cfg s x sellOk rawPrice now).1
  | Op.cleanup cutoff => dbCleanupOldTokens s cutoff

def runOps (cfg : Config) (ops : List Op) : Store :=
  ops.foldl (applyOp cfg) []

def statusAt (s : Store) (a : String) : Option Status :=
  (dbGetToken s a).map (fun r => r.status)

/-! ## Store lemmas -/

def addrs (s : Store) : List String := s.map (fun r => r.tokenAddress)

theorem dbGetToken_map (s : Store) (f : TokenTrack → TokenTrack)
    (hf : ∀ r, (f r).tokenAddress = r.tokenAddress) (a : String) :
    dbGetToken (s.map f) a = (dbGetToken s a).map f := by
  have hp : ((fun r => r.tokenAddress == a) ∘ f) =
      (fun r : TokenTrack => r.tokenAddress == a) := by
    funext r
    show ((f r).tokenAddress == a) = (r.tokenAddress == a)
    rw [hf]
  unfold dbGetToken
  rw [List.find?_map, hp]

theorem updateStatusFun_addr (b : String) (st : Status) (now : Nat)
    (r : TokenTrack) :
    (if r.tokenAddress == b then { r with status := st, lastCheck := now }
      else r).tokenAddress = r.tokenAddress := by
  split <;> rfl

theorem updatePriceFun_addr (b : String) (p : ℚ) (now : Nat) (r : TokenTrack) :
    (if r.tokenAddress == b then { r with price := p, lastCheck := now }
      else r).tokenAddress = r.tokenAddress := by
  split <;> rfl

theorem dbGetToken_updateStatus (s : Store) (b : String) (st : Status)
    (now : Nat) (a : String) :
    dbGetToken (dbUpdateTokenStatus s b st now) a =
      (dbGetToken s a).map (fun r =>
        if r.tokenAddress == b then { r with status := st, lastCheck := now }
        else r) :=
  dbGetToken_map s _ (updateStatusFun_addr b st now) a

theorem dbGetToken_updatePrice (s : Store) (b : String) (p : ℚ) (now : Nat)
    (a : String) :
    dbGetToken (dbUpdateTokenPrice s b p now) a =
      (dbGetToken s a).map (fun r =>
        if r.tokenAddress == b then { r with price := p, lastCheck := now }
        else r) :=
  dbGetToken_map s _ (updatePriceFun_addr b p now) a

theorem dbGetToken_append_single (s : Store) (t : TokenTrack) (a : String) :
    dbGetToken (s ++ [t]) a =
      (dbGetToken s a).or (if t.tokenAddress == a then some t else none) := by
  unfold dbGetToken
  rw [List.find?_append]
  congr 1
  cases h : t.tokenAddress == a <;> simp [List.find?, h]

theorem dbGetToken_eq_none_iff (s : Store) (a : String) :
    dbGetToken s a = none ↔ ∀ r ∈ s, r.tokenAddress ≠ a := by
  unfold dbGetToken
  rw [List.find?_eq_none]
  constructor
  · intro h r hr
    have := h r hr
    simpa using this
  · intro h r hr
    simpa using h r hr

theorem dbAddToken_of_absent (s : Store) (t : TokenTrack)
    (h : dbGetToken s t.tokenAddress = none) : dbAddToken s t = s ++ [t] := by
  have hany : s.any (fun r => r.tokenAddress == t.tokenAddress) = false := by
    rw [List.any_eq_false]
    intro r hr
    rw [dbGetToken_eq_none_iff] at h
    simpa using h r hr
  simp [dbAddToken, hany]

theorem statusAt_updatePrice (s : Store) (b : String) (p : ℚ) (now : Nat)
    (a : String) :
    statusAt (dbUpdateTokenPrice s b p now) a = statusAt s a := by
  unfold statusAt
  rw [dbGetToken_updatePrice]
  cases dbGetToken s a with
  | none => rfl
  | some r =>
      simp only [Option.map_some']
      congr 1
      split <;> rfl

theorem statusAt_updateStatus_inactive (s : Store) (b : String) (now : Nat)
    (a : String) (h : statusAt s a = some Status.inactive) :
    statusAt (dbUpdateTokenStatus s b Status.inactive now) a =
      some Status.inactive := by
  unfold statusAt at h ⊢
  rw [dbGetToken_updateStatus]
  cases hg : dbGetToken s a with
  | none => rw [hg] at h; simp at h
  | some r =>
      rw [hg] at h
      simp only [Option.map_some'] at h ⊢
      split
      · rfl
      · exact h

theorem statusAt_append_of_isSome (s : Store) (t : TokenTrack) (a : String)
    (h : (dbGetToken s a).isSome) :
    statusAt (s ++ [t]) a = statusAt s a := by
  unfold statusAt
  rw [dbGetToken_append_single]
  cases hg : dbGetToken s a with
  | none => rw [hg] at h; simp at h
  | some r => rfl

/-! ## Characterizations of `checkToken` -/

/-- The store component written by one `checkToken` call: the price update on
a non-null price, then the status flip when the dev-sold check fires. -/
def priceStore (s : Store) (t : TokenTrack) (rawPrice : Option ℚ)
    (now : Nat) : Store :=
  match getCurrentPrice rawPrice with
  | none => s
  | some p => dbUpdateTokenPrice s t.tokenAddress p now

theorem checkToken_store (cfg : Config) (s : Store) (t : TokenTrack)
    (rawPrice : Option ℚ) (dev : Bool) (now : Nat) :
    (checkToken cfg s t rawPrice dev now).1 =
      if dev then
        dbUpdateTokenStatus (priceStore s t rawPrice now) t.tokenAddress
          Status.inactive now
      else priceStore s t rawPrice now := by
  unfold checkToken priceStore
  cases hp : getCurrentPrice rawPrice with
  | none => cases dev <;> simp
  | some p =>
      cases dev with
      | false =>
          by_cases hth : (p - t.price) / t.price * 100 > 200 <;> simp [hth]
      | true =>
          by_cases hth : (p - t.price) / t.price * 100 > 200 <;> simp [hth]

theorem checkToken_trades (cfg : Config) (s : Store) (t : TokenTrack)
    (rawPrice : Option ℚ) (dev : Bool) (now : Nat) :
    (checkToken cfg s t rawPrice dev now).2 =
      match getCurrentPrice rawPrice with
      | none => []
      | some p =>
          if (p - t.price) / t.price * 100 > 200 then [Trade.buy t.tokenAddress]
          else [] := by
  unfold checkToken
  cases hp : getCurrentPrice rawPrice with
  | none => cases dev <;> simp
  | some p =>
      cases dev with
      | false =>
          by_cases hth : (p - t.price) / t.price * 100 > 200 <;> simp [hth, buyToken]
      | true =>
          by_cases hth : (p - t.price) / t.price * 100 > 200 <;> simp [hth, buyToken]

/-! ## Address multiset preservation and uniqueness -/

theorem addrs_map (s : Store) (f : TokenTrack → TokenTrack)
    (hf : ∀ r, (f r).tokenAddress = r.tokenAddress) :
    addrs (s.map f) = addrs s := by
  unfold addrs
  rw [List.map_map]
  congr 1
  funext r
  exact hf r

theorem addrs_updateStatus (s : Store) (b : String) (st : Status) (now : Nat) :
    addrs (dbUpdateTokenStatus s b st now) = addrs s :=
  addrs_map s _ (updateStatusFun_addr b st now)

theorem addrs_updatePrice (s : Store) (b : String) (p : ℚ) (now : Nat) :
    addrs (dbUpdateTokenPrice s b p now) = addrs s :=
  addrs_map s _ (updatePriceFun_addr b p now)

theorem addrs_priceStore (s : Store) (t : TokenTrack) (rawPrice : Option ℚ)
    (now : Nat) : addrs (priceStore s t rawPrice now) = addrs s := by
  unfold priceStore
  cases getCurrentPrice rawPrice with
  | none => rfl
  | some p => exact addrs_updatePrice s t.tokenAddress p now

theorem addrs_checkToken (cfg : Config) (s : Store) (t : TokenTrack)
    (rawPrice : Option ℚ) (dev : Bool) (now : Nat) :
    addrs (checkToken cfg s t rawPrice dev now).1 = addrs s := by
  rw [checkToken_store]
  cases dev with
  | false => simpa using addrs_priceStore s t rawPrice now
  | true =>
      simp only [if_true]
      rw [addrs_updateStatus]
      exact addrs_priceStore s t rawPrice now

theorem addrs_pollFold (cfg : Config) (priceOf : String → Option ℚ)
    (devSoldOf : String → Bool) (now : Nat) (ts : List TokenTrack)
    (acc : Store × List Trade) :
    addrs ((ts.foldl (pollStep cfg priceOf devSoldOf now) acc).1) =
      addrs acc.1 := by
  induction ts generalizing acc with
  | nil => rfl
  | cons t ts ih =>
      rw [List.foldl_cons, ih]
      exact addrs_checkToken cfg acc.1 t (priceOf t.tokenAddress)
        (devSoldOf t.tokenAddress) now

theorem addrs_sweepFold (x : String) (sellOk : String → Bool) (now : Nat)
    (ts : List TokenTrack) (acc : Store × List Trade) :
    addrs ((ts.foldl (sweepStep x sellOk now) acc).1) = addrs acc.1 := by
  induction ts generalizing acc with
  | nil => rfl
  | cons t ts ih =>
      rw [List.foldl_cons, ih]
      unfold sweepStep
      by_cases hx : t.tokenAddress ≠ x
      · rw [if_pos hx]
        by_cases hok : sellOk t.tokenAddress
        · simp only [hok, if_true]
          exact addrs_updateStatus acc.1 t.tokenAddress Status.inactive now
        · simp [hok]
      · rw [if_neg hx]

theorem nodup_addrs_append (s : Store) (t : TokenTrack)
    (h : (addrs s).Nodup) (habs : dbGetToken s t.tokenAddress = none) :
    (addrs (s ++ [t])).Nodup := by
  unfold addrs
  rw [List.map_append, List.nodup_append]
  refine ⟨h, List.nodup_singleton _, ?_⟩
  intro b hb hb'
  simp only [List.map_cons, List.map_nil, List.mem_singleton] at hb'
  rw [dbGetToken_eq_none_iff] at habs
  obtain ⟨r, hr, hra⟩ := List.mem_map.mp hb
  exact habs r hr (by rw [hra, hb'])

theorem nodup_addrs_filter (s : Store) (q : TokenTrack → Bool)
    (h : (addrs s).Nodup) : (addrs (s.filter q)).Nodup :=
  List.Nodup.sublist ((List.filter_sublist s).map _) h

theorem nodup_addrs_monitorAddToken (s : Store) (a : String) (p : ℚ)
    (now : Nat) (h : (addrs s).Nodup) (habs : dbGetToken s a = none) :
    (addrs (monitorAddToken s a p now)).Nodup := by
  unfold monitorAddToken
  rw [dbAddToken_of_absent _ _ habs]
  exact nodup_addrs_append s _ h habs

theorem isSome_eq_false_iff_none (o : Option TokenTrack) :
    o.isSome = false ↔ o = none := by
  cases o <;> simp

theorem nodup_addrs_handle (s : Store) (mint : Option String)
    (rug : Except Unit Bool) (rawPrice : Option ℚ) (now : Nat)
    (h : (addrs s).Nodup) :
    (addrs (handleNewTokenFromWebsocket s mint rug rawPrice now)).Nodup := by
  cases mint with
  | none => exact h
  | some a =>
      show (addrs (handleNewTokenFromWebsocket s (some a) rug rawPrice now)).Nodup
      simp only [handleNewTokenFromWebsocket]
      by_cases ha : a = ""
      · rw [if_pos ha]; exact h
      · rw [if_neg ha]
        by_cases hex : (dbGetToken s a).isSome
        · rw [if_pos hex]; exact h
        · rw [if_neg hex]
          have habs : dbGetToken s a = none := by
            rw [← isSome_eq_false_iff_none]
            exact Bool.eq_false_iff.mpr hex
          cases rug with
          | error e => exact h
          | ok passed =>
              cases passed with
              | false => exact h
              | true =>
                  simp only [Bool.not_true, Bool.false_eq_true, if_false]
                  cases hp : getCurrentPrice rawPrice with
                  | none => exact h
                  | some p => exact nodup_addrs_monitorAddToken s a p now h habs

theorem nodup_addrs_correctFinish (cfg : Config) (x : String)
    (rawPrice : Option ℚ) (now : Nat) (swept : Store × List Trade)
    (h : (addrs swept.1).Nodup) :
    (addrs (correctFinish cfg x rawPrice now swept).1).Nodup := by
  unfold correctFinish
  cases hg : dbGetToken swept.1 x with
  | some r => exact h
  | none =>
      cases hp : getCurrentPrice rawPrice with
      | none => exact h
      | some p => exact nodup_addrs_monitorAddToken swept.1 x p now h hg

theorem nodup_addrs_applyOp (cfg : Config) (s : Store) (op : Op)
    (h : (addrs s).Nodup) : (addrs (applyOp cfg s op)).Nodup := by
  cases op with
  | discover mint rug rawPrice now => exact nodup_addrs_handle s mint rug rawPrice now h
  | poll priceOf devSoldOf now =>
      show (addrs (pollSweep cfg s priceOf devSoldOf now).1).Nodup
      unfold pollSweep
      rw [addrs_pollFold]
      exact h
  | correct x sellOk rawPrice now =>
      show (addrs (setCorrectToken cfg s x sellOk rawPrice now).1).Nodup
      unfold setCorrectToken
      apply nodup_addrs_correctFinish
      rw [addrs_sweepFold]
      exact h
  | cleanup cutoff => exact nodup_addrs_filter s _ h

theorem nodup_addrs_runOps (cfg : Config) (ops : List Op) :
    (addrs (runOps cfg ops)).Nodup := by
  unfold runOps
  have hgen : ∀ s : Store, (addrs s).Nodup →
      (addrs (ops.foldl (applyOp cfg) s)).Nodup := by
    induction ops with
    | nil => intro s hs; exact hs
    | cons op ops ih =>
        intro s hs
        exact ih _ (nodup_addrs_applyOp cfg s op hs)
  exact hgen [] (by simp [addrs])

/-! ## Status monotonicity: each operation only turns `active` into
`inactive`; no write ever revives an `inactive` record. -/

theorem statusAt_priceStore (s : Store) (t : TokenTrack) (rawPrice : Option ℚ)
    (now : Nat) (a : String) :
    statusAt (priceStore s t rawPrice now) a = statusAt s a := by
  unfold priceStore
  cases getCurrentPrice rawPrice with
  | none => rfl
  | some p => exact statusAt_updatePrice s t.tokenAddress p now a

theorem statusAt_checkToken_inactive (cfg : Config) (s : Store)
    (t : TokenTrack) (rawPrice : Option ℚ) (dev : Bool) (now : Nat)
    (a : String) (h : statusAt s a = some Status.inactive) :
    statusAt (checkToken cfg s t rawPrice dev now).1 a =
      some Status.inactive := by
  rw [checkToken_store]
  cases dev with
  | false =>
      simp only [Bool.false_eq_true, if_false]
      rw [statusAt_priceStore]
      exact h
  | true =>
      simp only [if_true]
      apply statusAt_updateStatus_inactive
      rw [statusAt_priceStore]
      exact h

theorem statusAt_pollFold_inactive (cfg : Config)
    (priceOf : String → Option ℚ) (devSoldOf : String → Bool) (now : Nat)
    (ts : List TokenTrack) (acc : Store × List Trade) (a : String)
    (h : statusAt acc.1 a = some Status.inactive) :
    statusAt ((ts.foldl (pollStep cfg priceOf devSoldOf now) acc).1) a =
      some Status.inactive := by
  induction ts generalizing acc with
  | nil => exact h
  | cons t ts ih =>
      rw [List.foldl_cons]
      exact ih _ (statusAt_checkToken_inactive cfg acc.1 t _ _ now a h)

theorem statusAt_sweepStep_inactive (x : String) (sellOk : String → Bool)
    (now : Nat) (acc : Store × List Trade) (t : TokenTrack) (a : String)
    (h : statusAt acc.1 a = some Status.inactive) :
    statusAt (sweepStep x sellOk now acc t).1 a = some Status.inactive := by
  unfold sweepStep
  by_cases hx : t.tokenAddress ≠ x
  · rw [if_pos hx]
    by_cases hok : sellOk t.tokenAddress
    · simp only [hok, if_true]
      exact statusAt_updateStatus_inactive acc.1 t.tokenAddress now a h
    · simp only [hok, Bool.false_eq_true, if_false]
      exact h
  · rw [if_neg hx]
    exact h

theorem statusAt_sweepFold_inactive (x : String) (sellOk : String → Bool)
    (now : Nat) (ts : List TokenTrack) (acc : Store × List Trade) (a : String)
    (h : statusAt acc.1 a = some Status.inactive) :
    statusAt ((ts.foldl (sweepStep x sellOk now) acc).1) a =
      some Status.inactive := by
  induction ts generalizing acc with
  | nil => exact h
  | cons t ts ih =>
      rw [List.foldl_cons]
      exact ih _ (statusAt_sweepStep_inactive x sellOk now acc t a h)

theorem statusAt_monitorAddToken_of_isSome (s : Store) (b : String) (p : ℚ)
    (now : Nat) (a : String) (habs : dbGetToken s b = none)
    (h : (dbGetToken s a).isSome) :
    statusAt (monitorAddToken s b p now) a = statusAt s a := by
  unfold monitorAddToken
  rw [dbAddToken_of_absent _ _ habs]
  exact statusAt_append_of_isSome s _ a h

theorem statusAt_some_isSome (s : Store) (a : String) (st : Status)
    (h : statusAt s a = some st) : (dbGetToken s a).isSome := by
  unfold statusAt at h
  cases hg : dbGetToken s a with
  | none => rw [hg] at h; simp at h
  | some r => rfl

theorem statusAt_handle_inactive (s : Store) (mint : Option String)
    (rug : Except Unit Bool) (rawPrice : Option ℚ) (now : Nat) (a : String)
    (h : statusAt s a = some Status.inactive) :
    statusAt (handleNewTokenFromWebsocket s mint rug rawPrice now) a =
      some Status.inactive := by
  cases mint with
  | none => exact h
  | some b =>
      show statusAt (handleNewTokenFromWebsocket s (some b) rug rawPrice now) a =
        some Status.inactive
      simp only [handleNewTokenFromWebsocket]
      by_cases hb : b = ""
      · rw [if_pos hb]; exact h
      · rw [if_neg hb]
        by_cases hex : (dbGetToken s b).isSome
        · rw [if_pos hex]; exact h
        · rw [if_neg hex]
          have habs : dbGetToken s b = none := by
            rw [← isSome_eq_false_iff_none]
            exact Bool.eq_false_iff.mpr hex
          cases rug with
          | error e => exact h
          | ok passed =>
              cases passed with
              | false => exact h
              | true =>
                  simp only [Bool.not_true, Bool.false_eq_true, if_false]
                  cases hp : getCurrentPrice rawPrice with
                  | none => exact h
                  | some p =>
                      rw [statusAt_monitorAddToken_of_isSome s b p now a habs
                        (statusAt_some_isSome s a Status.inactive h)]
                      exact h

theorem statusAt_correctFinish_inactive (cfg : Config) (x : String)
    (rawPrice : Option ℚ) (now : Nat) (swept : Store × List Trade)
    (a : String) (h : statusAt swept.1 a = some Status.inactive) :
    statusAt (correctFinish cfg x rawPrice now swept).1 a =
      some Status.inactive := by
  unfold correctFinish
  cases hg : dbGetToken swept.1 x with
  | some r => exact h
  | none =>
      cases hp : getCurrentPrice rawPrice with
      | none => exact h
      | some p =>
          show statusAt (monitorAddToken swept.1 x p now) a = some Status.inactive
          rw [statusAt_monitorAddToken_of_isSome swept.1 x p now a hg
            (statusAt_some_isSome swept.1 a Status.inactive h)]
          exact h

def addrPred (a : String) (r : TokenTrack) : Bool := r.tokenAddress == a

theorem dbGetToken_eq_find (s : Store) (a : String) :
    dbGetToken s a = s.find? (addrPred a) := rfl

/-- With unique addresses, looking up an address in a filtered store yields
the original record when it is kept and nothing when it is deleted. -/
theorem dbGetToken_filter_of_nodup (s : Store) (q : TokenTrack → Bool)
    (a : String) (hnd : (addrs s).Nodup) (r : TokenTrack)
    (h : dbGetToken s a = some r) :
    dbGetToken (s.filter q) a = if q r then some r else none := by
  rw [dbGetToken_eq_find] at h ⊢
  induction s with
  | nil => simp at h
  | cons t ts ih =>
      have hnd' : (addrs ts).Nodup := (List.nodup_cons.mp hnd).2
      by_cases ht : addrPred a t = true
      · have hr : r = t := by
          rw [List.find?_cons_of_pos _ ht] at h
          exact (Option.some_inj.mp h).symm
        subst hr
        have hta : r.tokenAddress = a := eq_of_beq ht
        have hnotin : ∀ u ∈ ts, u.tokenAddress ≠ a := by
          intro u hu hua
          have hmem : a ∈ addrs ts := List.mem_map.mpr ⟨u, hu, hua⟩
          have hnin : r.tokenAddress ∉ addrs ts := (List.nodup_cons.mp hnd).1
          rw [hta] at hnin
          exact hnin hmem
        by_cases hq : q r = true
        · rw [List.filter_cons_of_pos hq, if_pos hq]
          rw [List.find?_cons_of_pos _ ht]
        · rw [List.filter_cons_of_neg (by simpa using hq), if_neg hq]
          rw [List.find?_eq_none]
          intro u hu
          have hmem : u ∈ ts := List.mem_of_mem_filter hu
          simp only [addrPred]
          simpa using hnotin u hmem
      · have h' : ts.find? (addrPred a) = some r := by
          rw [List.find?_cons_of_neg _ ht] at h
          exact h
        by_cases hq : q t = true
        · rw [List.filter_cons_of_pos hq]
          rw [List.find?_cons_of_neg _ ht]
          exact ih hnd' h'
        · rw [List.filter_cons_of_neg (by simpa using hq)]
          exact ih hnd' h'

theorem statusAt_cleanup_inactive (s : Store) (cutoff : Nat) (a : String)
    (hnd : (addrs s).Nodup) (h : statusAt s a = some Status.inactive) :
    statusAt (dbCleanupOldTokens s cutoff) a = none ∨
      statusAt (dbCleanupOldTokens s cutoff) a = some Status.inactive := by
  unfold statusAt at h
  cases hg : dbGetToken s a with
  | none => rw [hg] at h; simp at h
  | some r =>
      rw [hg] at h
      have hr : r.status = Status.inactive := by simpa using h
      unfold dbCleanupOldTokens statusAt
      rw [dbGetToken_filter_of_nodup s _ a hnd r hg]
      by_cases hq :
          (!(decide (r.lastCheck < cutoff) && r.status == Status.inactive)) = true
      · right; rw [if_pos hq]; simp [hr]
      · left; rw [if_neg hq]; rfl

theorem statusAt_applyOp_inactive (cfg : Config) (s : Store) (op : Op)
    (a : String) (hnd : (addrs s).Nodup)
    (h : statusAt s a = some Status.inactive) :
    statusAt (applyOp cfg s op) a = none ∨
      statusAt (applyOp cfg s op) a = some Status.inactive := by
  cases op with
  | discover mint rug rawPrice now =>
      right; exact statusAt_handle_inactive s mint rug rawPrice now a h
  | poll priceOf devSoldOf now =>
      right
      show statusAt (pollSweep cfg s priceOf devSoldOf now).1 a = _
      unfold pollSweep
      exact statusAt_pollFold_inactive cfg priceOf devSoldOf now _ (s, []) a h
  | correct x sellOk rawPrice now =>
      right
      show statusAt (setCorrectToken cfg s x sellOk rawPrice now).1 a = _
      unfold setCorrectToken
      apply statusAt_correctFinish_inactive
      exact statusAt_sweepFold_inactive x sellOk now _ (s, []) a h
  | cleanup cutoff => exact statusAt_cleanup_inactive s cutoff a hnd h

/-- Claim C3: in every store reachable by the system operations (enrollment,
poll cycle with dev-sold handling, correct-token sweep, cleanup), a record
that is `inactive` is never `active` after one further operation (it is
either still `inactive` or deleted by cleanup), and whenever an operation
changes a record's status at all, the change is `active` to `inactive`. -/
theorem c3_status_monotonic (cfg : Config) (ops : List Op) (op : Op)
    (a : String) :
    (statusAt (runOps cfg ops) a = some Status.inactive →
      statusAt (applyOp cfg (runOps cfg ops) op) a ≠ some Status.active) ∧
    (∀ st st', statusAt (runOps cfg ops) a = some st →
      statusAt (applyOp cfg (runOps cfg ops) op) a = some st' →
      st ≠ st' → st = Status.active ∧ st' = Status.inactive) := by
  have hnd := nodup_addrs_runOps cfg ops
  constructor
  · intro h hc
    rcases statusAt_applyOp_inactive cfg _ op a hnd h with h' | h'
    · rw [hc] at h'; exact Option.noConfusion h'
    · rw [hc] at h'; exact Status.noConfusion (Option.some_inj.mp h')
  · intro st st' h h' hne
    cases st with
    | active =>
        cases st' with
        | active => exact absurd rfl hne
        | inactive => exact ⟨rfl, rfl⟩
    | inactive =>
        rcases statusAt_applyOp_inactive cfg _ op a hnd h with h2 | h2
        · rw [h'] at h2; exact Option.noConfusion h2
        · rw [h'] at h2
          have hst : Status.inactive = st' := (Option.some_inj.mp h2).symm
          exact absurd hst hne

/-- Witness for C3 at a concrete run: enroll token `A`, mark it inactive via
a dev-sold poll, then apply a cleanup operation; `A` is not active. -/
theorem c3_witness :
    statusAt (applyOp ⟨false⟩ (runOps ⟨false⟩
      [Op.discover (some "A") (Except.ok true) (some 1) 0,
       Op.poll (fun _ => none) (fun _ => true) 1]) (Op.cleanup 0)) "A" ≠
      some Status.active :=
  (c3_status_monotonic ⟨false⟩
    [Op.discover (some "A") (Except.ok true) (some 1) 0,
     Op.poll (fun _ => none) (fun _ => true) 1] (Op.cleanup 0) "A").1
    (by decide)

/-- Claim C2: enrollment is idempotent.  If a record for an address exists in
the store (whatever its status), `handleNewTokenFromWebsocket` for the same
address is a no-op, and every store reachable by the system operations has at
most one record per address. -/
theorem c2_idempotent_enrollment :
    (∀ (s : Store) (a : String) (r : TokenTrack) (rug : Except Unit Bool)
      (rawPrice : Option ℚ) (now : Nat), dbGetToken s a = some r →
      handleNewTokenFromWebsocket s (some a) rug rawPrice now = s) ∧
    (∀ (cfg : Config) (ops : List Op), (addrs (runOps cfg ops)).Nodup) := by
  constructor
  · intro s a r rug rawPrice now h
    simp only [handleNewTokenFromWebsocket]
    by_cases ha : a = ""
    · rw [if_pos ha]
    · rw [if_neg ha, if_pos (by rw [h]; rfl)]
  · intro cfg ops
    exact nodup_addrs_runOps cfg ops

/-- Witness for C2: a second discovery of an already-monitored address leaves
the store unchanged. -/
theorem c2_witness :
    handleNewTokenFromWebsocket
      [{ tokenAddress := "A", timestamp := 0, price := 1, lastCheck := 0,
         status := Status.active }]
      (some "A") (Except.ok true) (some 2) 5 =
      [{ tokenAddress := "A", timestamp := 0, price := 1, lastCheck := 0,
         status := Status.active }] :=
  c2_idempotent_enrollment.1 _ "A"
    { tokenAddress := "A", timestamp := 0, price := 1, lastCheck := 0,
      status := Status.active }
    (Except.ok true) (some 2) 5 (by decide)

/-- Claim C6: the safety gate fails closed.  Whether the rug check throws or
merely reports failure, `handleNewTokenFromWebsocket` leaves the store
untouched (no enrollment, no row); being a total function of the rug-check
outcome, the handler also never propagates the exception. -/
theorem c6_rugcheck_fails_closed (s : Store) (mint : Option String)
    (rawPrice : Option ℚ) (now : Nat) :
    (∀ e : Unit,
      handleNewTokenFromWebsocket s mint (Except.error e) rawPrice now = s) ∧
    handleNewTokenFromWebsocket s mint (Except.ok false) rawPrice now = s := by
  constructor
  · intro e
    cases mint with
    | none => rfl
    | some a =>
        simp only [handleNewTokenFromWebsocket]
        by_cases ha : a = ""
        · rw [if_pos ha]
        · rw [if_neg ha]
          by_cases hex : (dbGetToken s a).isSome
          · rw [if_pos hex]
          · rw [if_neg hex]
  · cases mint with
    | none => rfl
    | some a =>
        simp only [handleNewTokenFromWebsocket]
        by_cases ha : a = ""
        · rw [if_pos ha]
        · rw [if_neg ha]
          by_cases hex : (dbGetToken s a).isSome
          · rw [if_pos hex]
          · rw [if_neg hex]
            rfl

/-- Witness for C6: a rug-check exception on a fresh address creates no row. -/
theorem c6_witness :
    handleNewTokenFromWebsocket [] (some "A") (Except.error ()) (some 1) 0 =
      [] :=
  (c6_rugcheck_fails_closed [] (some "A") (some 1) 0).1 ()

/-- Claim C10: a fetched price of exactly 0 is indistinguishable from a failed
lookup: `getCurrentPrice` coerces both to `null`; a candidate whose price
fetch yields 0 is never enrolled; and a poll observing 0 performs no stored
price update and no buy evaluation (only the independent dev-sold handling
can still run). -/
theorem c10_zero_price_like_failure (s : Store) (mint : Option String)
    (rug : Except Unit Bool) (now : Nat) (cfg : Config) (t : TokenTrack)
    (dev : Bool) :
    getCurrentPrice (some 0) = getCurrentPrice none ∧
    getCurrentPrice (some 0) = none ∧
    handleNewTokenFromWebsocket s mint rug (some 0) now = s ∧
    (checkToken cfg s t (some 0) dev now).1 =
      (if dev then dbUpdateTokenStatus s t.tokenAddress Status.inactive now
       else s) ∧
    (checkToken cfg s t (some 0) dev now).2 = [] := by
  have hz : getCurrentPrice (some 0) = none := by simp [getCurrentPrice]
  refine ⟨by simp [getCurrentPrice], hz, ?_, ?_, ?_⟩
  · cases mint with
    | none => rfl
    | some a =>
        simp only [handleNewTokenFromWebsocket]
        by_cases ha : a = ""
        · rw [if_pos ha]
        · rw [if_neg ha]
          by_cases hex : (dbGetToken s a).isSome
          · rw [if_pos hex]
          · rw [if_neg hex]
            cases rug with
            | error e => rfl
            | ok passed =>
                cases passed with
                | false => rfl
                | true => simp [hz]
  · rw [checkToken_store]
    unfold priceStore
    rw [hz]
  · rw [checkToken_trades]
    rw [hz]

/-! ## C4 and C5: the stored price is a rolling baseline, not a frozen
enrollment-time reference -/

/-- Counterexample to claim C4 as stated: token `A` is enrolled at price 1;
a single poll observing price 4 overwrites the stored price field with 4, so
the stored reference is mutated after enrollment rather than written exactly
once, and the next sweep will compare against 4, not 1. -/
theorem c4_counterexample :
    dbGetToken (handleNewTokenFromWebsocket [] (some "A") (Except.ok true)
      (some 1) 0) "A" =
      some { tokenAddress := "A", timestamp := 0, price := 1, lastCheck := 0,
             status := Status.active } ∧
    dbGetToken ((pollSweep ⟨false⟩
        (handleNewTokenFromWebsocket [] (some "A") (Except.ok true) (some 1) 0)
        (fun _ => some 4) (fun _ => false) 1).1) "A" =
      some { tokenAddress := "A", timestamp := 0, price := 4, lastCheck := 1,
             status := Status.active } ∧
    (4 : ℚ) ≠ 1 := by
  have h0 : handleNewTokenFromWebsocket [] (some "A") (Except.ok true)
      (some 1) 0 =
      [{ tokenAddress := "A", timestamp := 0, price := 1, lastCheck := 0,
         status := Status.active }] := by decide
  refine ⟨by rw [h0]; decide, ?_, by decide⟩
  rw [h0]
  have hsweep : (pollSweep ⟨false⟩
      [{ tokenAddress := "A", timestamp := 0, price := 1, lastCheck := 0,
         status := Status.active }]
      (fun _ => some 4) (fun _ => false) 1).1 =
      (checkToken ⟨false⟩
        [{ tokenAddress := "A", timestamp := 0, price := 1, lastCheck := 0,
           status := Status.active }]
        { tokenAddress := "A", timestamp := 0, price := 1, lastCheck := 0,
          status := Status.active }
        (some 4) false 1).1 := rfl
  rw [hsweep, checkToken_store]
  have hps : priceStore
      [{ tokenAddress := "A", timestamp := 0, price := 1, lastCheck := 0,
         status := Status.active }]
      { tokenAddress := "A", timestamp := 0, price := 1, lastCheck := 0,
        status := Status.active } (some 4) 1 =
      dbUpdateTokenPrice
        [{ tokenAddress := "A", timestamp := 0, price := 1, lastCheck := 0,
           status := Status.active }] "A" 4 1 := by decide
  simp only [Bool.false_eq_true, if_false, hps]
  decide

theorem mem_updatePrice_price (s : Store) (b : String) (p : ℚ) (now : Nat)
    (r : TokenTrack) (hr : r ∈ dbUpdateTokenPrice s b p now)
    (hra : r.tokenAddress = b) : r.price = p := by
  unfold dbUpdateTokenPrice at hr
  obtain ⟨u, hu, hur⟩ := List.mem_map.mp hr
  by_cases hub : (u.tokenAddress == b) = true
  · rw [if_pos hub] at hur
    rw [← hur]
  · rw [if_neg hub] at hur
    subst hur
    exact absurd (beq_iff_eq.mpr hra) hub

theorem mem_updateStatus_exists (s : Store) (b : String) (st : Status)
    (now : Nat) (r : TokenTrack) (hr : r ∈ dbUpdateTokenStatus s b st now) :
    ∃ u ∈ s, r.price = u.price ∧ r.tokenAddress = u.tokenAddress := by
  unfold dbUpdateTokenStatus at hr
  obtain ⟨u, hu, hur⟩ := List.mem_map.mp hr
  subst hur
  refine ⟨u, hu, ?_, ?_⟩ <;> split <;> rfl

/-- Claim C4 (amended): the stored price field is initialized at enrollment
and then overwritten on every poll whose price fetch succeeds with a nonzero
price (together with `lastCheck`), and the buy trigger compares the observed
price against the sweep-snapshot value of that same field (the previous
poll's stored price), not against an immutable enrollment-time baseline. -/
theorem c4_amended (cfg : Config) (s : Store) (t : TokenTrack) (p : ℚ)
    (dev : Bool) (now : Nat) (hp : p ≠ 0) :
    ((checkToken cfg s t (some p) dev now).2 =
      if (p - t.price) / t.price * 100 > 200 then [Trade.buy t.tokenAddress]
      else []) ∧
    (∀ r ∈ (checkToken cfg s t (some p) dev now).1,
      r.tokenAddress = t.tokenAddress → r.price = p) := by
  have hgp : getCurrentPrice (some p) = some p := by
    simp [getCurrentPrice, hp]
  constructor
  · rw [checkToken_trades, hgp]
  · intro r hr hra
    rw [checkToken_store] at hr
    have hps : priceStore s t (some p) now =
        dbUpdateTokenPrice s t.tokenAddress p now := by
      unfold priceStore
      rw [hgp]
    cases dev with
    | false =>
        simp only [Bool.false_eq_true, if_false, hps] at hr
        exact mem_updatePrice_price s t.tokenAddress p now r hr hra
    | true =>
        simp only [if_true, hps] at hr
        obtain ⟨u, hu, hupr, huaddr⟩ := mem_updateStatus_exists _ _ _ _ r hr
        rw [hupr]
        exact mem_updatePrice_price s t.tokenAddress p now u hu
          (by rw [← huaddr, hra])

/-- Witness for the amended C4 at the enrollment scenario: reference 1,
observed 4. -/
theorem c4_amended_witness :
    ((checkToken ⟨false⟩
        [{ tokenAddress := "A", timestamp := 0, price := 1, lastCheck := 0,
           status := Status.active }]
        { tokenAddress := "A", timestamp := 0, price := 1, lastCheck := 0,
          status := Status.active }
        (some 4) false 1).2 =
      if ((4 : ℚ) - 1) / 1 * 100 > 200 then [Trade.buy "A"] else []) ∧
    (∀ r ∈ (checkToken ⟨false⟩
        [{ tokenAddress := "A", timestamp := 0, price := 1, lastCheck := 0,
           status := Status.active }]
        { tokenAddress := "A", timestamp := 0, price := 1, lastCheck := 0,
          status := Status.active }
        (some 4) false 1).1,
      r.tokenAddress = "A" → r.price = 4) :=
  c4_amended ⟨false⟩ _ _ 4 false 1 (by decide)

theorem getCurrentPrice_of_ne (p : ℚ) (hp : p ≠ 0) :
    getCurrentPrice (some p) = some p := by
  simp [getCurrentPrice, hp]

/-- Counterexample to claim C5 as stated: token `A` with enrollment reference
price 1; a first poll observing 4 dispatches a buy and overwrites the stored
price with 4; a second poll observing 15 — a price still above the original
reference 1 — dispatches a second buy, because the code compares against the
overwritten baseline 4 and (15-4)/4*100 = 275 > 200. -/
theorem c5_counterexample :
    (pollSweep ⟨false⟩
      [{ tokenAddress := "A", timestamp := 0, price := 1, lastCheck := 0,
         status := Status.active }]
      (fun _ => some 4) (fun _ => false) 1).2 = [Trade.buy "A"] ∧
    (pollSweep ⟨false⟩
      ((pollSweep ⟨false⟩
        [{ tokenAddress := "A", timestamp := 0, price := 1, lastCheck := 0,
           status := Status.active }]
        (fun _ => some 4) (fun _ => false) 1).1)
      (fun _ => some 15) (fun _ => false) 2).2 = [Trade.buy "A"] ∧
    (15 : ℚ) > 1 := by
  have hstore1 : (pollSweep ⟨false⟩
      [{ tokenAddress := "A", timestamp := 0, price := 1, lastCheck := 0,
         status := Status.active }]
      (fun _ => some 4) (fun _ => false) 1).1 =
      [{ tokenAddress := "A", timestamp := 0, price := 4, lastCheck := 1,
         status := Status.active }] := by
    have h1 : (pollSweep ⟨false⟩
        [{ tokenAddress := "A", timestamp := 0, price := 1, lastCheck := 0,
           status := Status.active }]
        (fun _ => some 4) (fun _ => false) 1).1 =
        (checkToken ⟨false⟩
          [{ tokenAddress := "A", timestamp := 0, price := 1, lastCheck := 0,
             status := Status.active }]
          { tokenAddress := "A", timestamp := 0, price := 1, lastCheck := 0,
            status := Status.active }
          (some 4) false 1).1 := rfl
    rw [h1, checkToken_store]
    simp only [Bool.false_eq_true, if_false]
    have hps : priceStore
        [{ tokenAddress := "A", timestamp := 0, price := 1, lastCheck := 0,
           status := Status.active }]
        { tokenAddress := "A", timestamp := 0, price := 1, lastCheck := 0,
          status := Status.active } (some 4) 1 =
        dbUpdateTokenPrice
          [{ tokenAddress := "A", timestamp := 0, price := 1, lastCheck := 0,
             status := Status.active }] "A" 4 1 := by decide
    rw [hps]
    decide
  have htr1 : (pollSweep ⟨false⟩
      [{ tokenAddress := "A", timestamp := 0, price := 1, lastCheck := 0,
         status := Status.active }]
      (fun _ => some 4) (fun _ => false) 1).2 =
      (checkToken ⟨false⟩
        [{ tokenAddress := "A", timestamp := 0, price := 1, lastCheck := 0,
           status := Status.active }]
        { tokenAddress := "A", timestamp := 0, price := 1, lastCheck := 0,
          status := Status.active }
        (some 4) false 1).2 := rfl
  refine ⟨?_, ?_, by norm_num⟩
  · rw [htr1, checkToken_trades, getCurrentPrice_of_ne 4 (by norm_num)]
    norm_num
  · rw [hstore1]
    have htr2 : (pollSweep ⟨false⟩
        [{ tokenAddress := "A", timestamp := 0, price := 4, lastCheck := 1,
           status := Status.active }]
        (fun _ => some 15) (fun _ => false) 2).2 =
        (checkToken ⟨false⟩
          [{ tokenAddress := "A", timestamp := 0, price := 4, lastCheck := 1,
             status := Status.active }]
          { tokenAddress := "A", timestamp := 0, price := 4, lastCheck := 1,
            status := Status.active }
          (some 15) false 2).2 := rfl
    rw [htr2, checkToken_trades, getCurrentPrice_of_ne 15 (by norm_num)]
    norm_num

/-- Claim C5 (amended): the buy trigger's comparison baseline is the stored
price, which each successful poll overwrites, so a subsequent poll dispatches
a second buy precisely when its observed price exceeds the previous poll's
stored price by more than 200%; in particular, in the spec's scenario
(reference 1, polls 7/2 then 18/5) exactly one buy is dispatched. -/
theorem c5_amended (p2 : ℚ) (hp2 : p2 ≠ 0) :
    ((pollSweep ⟨false⟩
      [{ tokenAddress := "A", timestamp := 0, price := 1, lastCheck := 0,
         status := Status.active }]
      (fun _ => some (7/2)) (fun _ => false) 1).2 = [Trade.buy "A"]) ∧
    ((pollSweep ⟨false⟩
      ((pollSweep ⟨false⟩
        [{ tokenAddress := "A", timestamp := 0, price := 1, lastCheck := 0,
           status := Status.active }]
        (fun _ => some (7/2)) (fun _ => false) 1).1)
      (fun _ => some (18/5)) (fun _ => false) 2).2 = []) ∧
    ((pollSweep ⟨false⟩
      [{ tokenAddress := "A", timestamp := 0, price := 7/2, lastCheck := 1,
         status := Status.active }]
      (fun _ => some p2) (fun _ => false) 2).2 =
      if (p2 - 7/2) / (7/2) * 100 > 200 then [Trade.buy "A"] else []) := by
  have hstore1 : (pollSweep ⟨false⟩
      [{ tokenAddress := "A", timestamp := 0, price := 1, lastCheck := 0,
         status := Status.active }]
      (fun _ => some (7/2)) (fun _ => false) 1).1 =
      [{ tokenAddress := "A", timestamp := 0, price := 7/2, lastCheck := 1,
         status := Status.active }] := by
    have h1 : (pollSweep ⟨false⟩
        [{ tokenAddress := "A", timestamp := 0, price := 1, lastCheck := 0,
           status := Status.active }]
        (fun _ => some (7/2)) (fun _ => false) 1).1 =
        (checkToken ⟨false⟩
          [{ tokenAddress := "A", timestamp := 0, price := 1, lastCheck := 0,
             status := Status.active }]
          { tokenAddress := "A", timestamp := 0, price := 1, lastCheck := 0,
            status := Status.active }
          (some (7/2)) false 1).1 := rfl
    rw [h1, checkToken_store]
    simp only [Bool.false_eq_true, if_false]
    have hps : priceStore
        [{ tokenAddress := "A", timestamp := 0, price := 1, lastCheck := 0,
           status := Status.active }]
        { tokenAddress := "A", timestamp := 0, price := 1, lastCheck := 0,
          status := Status.active } (some (7/2)) 1 =
        dbUpdateTokenPrice
          [{ tokenAddress := "A", timestamp := 0, price := 1, lastCheck := 0,
             status := Status.active }] "A" (7/2) 1 := by
      unfold priceStore
      rw [getCurrentPrice_of_ne _ (by norm_num)]
    rw [hps]
    simp [dbUpdateTokenPrice]
  refine ⟨?_, ?_, ?_⟩
  · have htr1 : (pollSweep ⟨false⟩
        [{ tokenAddress := "A", timestamp := 0, price := 1, lastCheck := 0,
           status := Status.active }]
        (fun _ => some (7/2)) (fun _ => false) 1).2 =
        (checkToken ⟨false⟩
          [{ tokenAddress := "A", timestamp := 0, price := 1, lastCheck := 0,
             status := Status.active }]
          { tokenAddress := "A", timestamp := 0, price := 1, lastCheck := 0,
            status := Status.active }
          (some (7/2)) false 1).2 := rfl
    rw [htr1, checkToken_trades, getCurrentPrice_of_ne _ (by norm_num)]
    norm_num
  · rw [hstore1]
    have htr2 : (pollSweep ⟨false⟩
        [{ tokenAddress := "A", timestamp := 0, price := 7/2, lastCheck := 1,
           status := Status.active }]
        (fun _ => some (18/5)) (fun _ => false) 2).2 =
        (checkToken ⟨false⟩
          [{ tokenAddress := "A", timestamp := 0, price := 7/2, lastCheck := 1,
             status := Status.active }]
          { tokenAddress := "A", timestamp := 0, price := 7/2, lastCheck := 1,
            status := Status.active }
          (some (18/5)) false 2).2 := rfl
    rw [htr2, checkToken_trades, getCurrentPrice_of_ne _ (by norm_num)]
    norm_num
  · have htrp : (pollSweep ⟨false⟩
        [{ tokenAddress := "A", timestamp := 0, price := 7/2, lastCheck := 1,
           status := Status.active }]
        (fun _ => some p2) (fun _ => false) 2).2 =
        (checkToken ⟨false⟩
          [{ tokenAddress := "A", timestamp := 0, price := 7/2, lastCheck := 1,
             status := Status.active }]
          { tokenAddress := "A", timestamp := 0, price := 7/2, lastCheck := 1,
            status := Status.active }
          (some p2) false 2).2 := rfl
    rw [htrp, checkToken_trades, getCurrentPrice_of_ne _ hp2]

/-- Witness for the amended C5: a second poll at 15 over stored baseline 7/2
re-fires the buy. -/
theorem c5_amended_witness :
    (pollSweep ⟨false⟩
      [{ tokenAddress := "A", timestamp := 0, price := 7/2, lastCheck := 1,
         status := Status.active }]
      (fun _ => some 15) (fun _ => false) 2).2 =
      (if ((15 : ℚ) - 7/2) / (7/2) * 100 > 200 then [Trade.buy "A"] else []) :=
  (c5_amended 15 (by norm_num)).2.2

/-! ## C7: the correct-token sweep -/

theorem sweepFold_trades_mono (x : String) (sellOk : String → Bool)
    (now : Nat) (ts : List TokenTrack) (acc : Store × List Trade) (e : Trade)
    (he : e ∈ acc.2) : e ∈ (ts.foldl (sweepStep x sellOk now) acc).2 := by
  induction ts generalizing acc with
  | nil => exact he
  | cons t ts ih =>
      rw [List.foldl_cons]
      apply ih
      unfold sweepStep
      by_cases hx : t.tokenAddress ≠ x
      · rw [if_pos hx]
        by_cases hok : sellOk t.tokenAddress
        · simp only [hok, if_true]
          exact List.mem_append_left _ he
        · simp only [hok, Bool.false_eq_true, if_false]
          exact List.mem_append_left _ he
      · rw [if_neg hx]
        exact he

theorem sell_mem_sweepFold (x : String) (sellOk : String → Bool) (now : Nat)
    (ts : List TokenTrack) (acc : Store × List Trade) (t : TokenTrack)
    (ht : t ∈ ts) (hx : t.tokenAddress ≠ x) :
    Trade.sell t.tokenAddress ∈ (ts.foldl (sweepStep x sellOk now) acc).2 := by
  induction ts generalizing acc with
  | nil => simp at ht
  | cons u us ih =>
      rw [List.foldl_cons]
      rcases List.mem_cons.mp ht with heq | hmem
      · subst heq
        apply sweepFold_trades_mono
        unfold sweepStep
        rw [if_pos hx]
        by_cases hok : sellOk t.tokenAddress
        · simp only [hok, if_true]
          exact List.mem_append_right _ (List.mem_singleton_self _)
        · simp only [hok, Bool.false_eq_true, if_false]
          exact List.mem_append_right _ (List.mem_singleton_self _)
      · exact ih _ hmem

theorem dbGetToken_sweepStep_none (x : String) (sellOk : String → Bool)
    (now : Nat) (acc : Store × List Trade) (t : TokenTrack) (b : String)
    (h : dbGetToken acc.1 b = none) :
    dbGetToken (sweepStep x sellOk now acc t).1 b = none := by
  unfold sweepStep
  by_cases hx : t.tokenAddress ≠ x
  · rw [if_pos hx]
    by_cases hok : sellOk t.tokenAddress
    · simp only [hok, if_true]
      show dbGetToken
        (dbUpdateTokenStatus acc.1 t.tokenAddress Status.inactive now) b = none
      rw [dbGetToken_updateStatus, h]
      rfl
    · simp only [hok, Bool.false_eq_true, if_false]
      exact h
  · rw [if_neg hx]
    exact h

theorem dbGetToken_sweepFold_none (x : String) (sellOk : String → Bool)
    (now : Nat) (ts : List TokenTrack) (acc : Store × List Trade) (b : String)
    (h : dbGetToken acc.1 b = none) :
    dbGetToken ((ts.foldl (sweepStep x sellOk now) acc).1) b = none := by
  induction ts generalizing acc with
  | nil => exact h
  | cons t ts ih =>
      rw [List.foldl_cons]
      exact ih _ (dbGetToken_sweepStep_none x sellOk now acc t b h)

theorem correctFinish_absent (cfg : Config) (x : String) (rawPrice : Option ℚ)
    (now : Nat) (swept : Store × List Trade) (p : ℚ)
    (habs : dbGetToken swept.1 x = none)
    (hgp : getCurrentPrice rawPrice = some p) :
    correctFinish cfg x rawPrice now swept =
      (monitorAddToken swept.1 x p now, swept.2 ++ buyToken cfg x) := by
  unfold correctFinish
  rw [habs, hgp]

theorem dbGetToken_isSome_of_mem (s : Store) (t : TokenTrack) (ht : t ∈ s) :
    (dbGetToken s t.tokenAddress).isSome := by
  cases hg : dbGetToken s t.tokenAddress with
  | some r => rfl
  | none =>
      rw [dbGetToken_eq_none_iff] at hg
      exact absurd rfl (hg t ht)

theorem statusAt_updateStatus_self (m : Store) (b : String) (now : Nat)
    (h : (dbGetToken m b).isSome) :
    statusAt (dbUpdateTokenStatus m b Status.inactive now) b =
      some Status.inactive := by
  unfold statusAt
  rw [dbGetToken_updateStatus]
  cases hg : dbGetToken m b with
  | none => rw [hg] at h; simp at h
  | some r =>
      have hrb : (r.tokenAddress == b) = true := by
        have := List.find?_some hg
        simpa using this
      simp only [Option.map_some']
      rw [if_pos hrb]

theorem dbGetToken_updateStatus_of_ne (m : Store) (c : String) (st : Status)
    (now : Nat) (b : String) (hbc : b ≠ c) :
    dbGetToken (dbUpdateTokenStatus m c st now) b = dbGetToken m b := by
  rw [dbGetToken_updateStatus]
  cases hg : dbGetToken m b with
  | none => rfl
  | some r =>
      have hrb : r.tokenAddress = b := by
        have := List.find?_some hg
        have hb : (r.tokenAddress == b) = true := by simpa using this
        exact eq_of_beq hb
      have hrc : ¬ ((r.tokenAddress == c) = true) := by
        intro hc
        exact hbc (by rw [← hrb]; exact eq_of_beq hc)
      simp only [Option.map_some']
      rw [if_neg hrc]

theorem isSome_dbGetToken_sweepStep (x : String) (sellOk : String → Bool)
    (now : Nat) (acc : Store × List Trade) (u : TokenTrack) (b : String)
    (h : (dbGetToken acc.1 b).isSome) :
    (dbGetToken (sweepStep x sellOk now acc u).1 b).isSome := by
  unfold sweepStep
  by_cases hx : u.tokenAddress ≠ x
  · rw [if_pos hx]
    by_cases hok : sellOk u.tokenAddress
    · simp only [hok, if_true]
      show (dbGetToken
        (dbUpdateTokenStatus acc.1 u.tokenAddress Status.inactive now) b).isSome
      rw [dbGetToken_updateStatus]
      cases hg : dbGetToken acc.1 b with
      | none => rw [hg] at h; simp at h
      | some r => rfl
    · simp only [hok, Bool.false_eq_true, if_false]
      exact h
  · rw [if_neg hx]
    exact h

theorem sweepFold_sold_inactive (x : String) (sellOk : String → Bool)
    (now : Nat) (ts : List TokenTrack) (acc : Store × List Trade)
    (t : TokenTrack) (ht : t ∈ ts) (hx : t.tokenAddress ≠ x)
    (hok : sellOk t.tokenAddress = true)
    (hpres : (dbGetToken acc.1 t.tokenAddress).isSome) :
    statusAt ((ts.foldl (sweepStep x sellOk now) acc).1) t.tokenAddress =
      some Status.inactive := by
  induction ts generalizing acc with
  | nil => simp at ht
  | cons u us ih =>
      rw [List.foldl_cons]
      rcases List.mem_cons.mp ht with heq | hmem
      · subst heq
        apply statusAt_sweepFold_inactive
        show statusAt (sweepStep x sellOk now acc t).1 t.tokenAddress =
          some Status.inactive
        unfold sweepStep
        rw [if_pos hx]
        simp only [hok, if_true]
        exact statusAt_updateStatus_self acc.1 t.tokenAddress now hpres
      · exact ih _ hmem
          (isSome_dbGetToken_sweepStep x sellOk now acc u t.tokenAddress hpres)

theorem sweepFold_not_sold_unchanged (x : String) (sellOk : String → Bool)
    (now : Nat) (ts : List TokenTrack) (acc : Store × List Trade) (b : String)
    (hok : sellOk b = false) (hbx : b ≠ x) :
    dbGetToken ((ts.foldl (sweepStep x sellOk now) acc).1) b =
      dbGetToken acc.1 b := by
  induction ts generalizing acc with
  | nil => rfl
  | cons u us ih =>
      rw [List.foldl_cons, ih]
      unfold sweepStep
      by_cases hx : u.tokenAddress ≠ x
      · rw [if_pos hx]
        by_cases huok : sellOk u.tokenAddress
        · simp only [huok, if_true]
          show dbGetToken
            (dbUpdateTokenStatus acc.1 u.tokenAddress Status.inactive now) b =
            dbGetToken acc.1 b
          apply dbGetToken_updateStatus_of_ne
          intro hbu
          rw [hbu] at hok
          rw [hok] at huok
          exact Bool.noConfusion huok
        · simp only [huok, Bool.false_eq_true, if_false]
      · rw [if_neg hx]

theorem sweepFold_trades_sells (x : String) (sellOk : String → Bool)
    (now : Nat) (ts : List TokenTrack) (acc : Store × List Trade) (e : Trade)
    (he : e ∈ (ts.foldl (sweepStep x sellOk now) acc).2) :
    e ∈ acc.2 ∨ ∃ b, e = Trade.sell b := by
  induction ts generalizing acc with
  | nil => exact Or.inl he
  | cons u us ih =>
      rw [List.foldl_cons] at he
      rcases ih _ he with hacc | hsell
      · unfold sweepStep at hacc
        by_cases hx : u.tokenAddress ≠ x
        · rw [if_pos hx] at hacc
          by_cases hok : sellOk u.tokenAddress
          · simp only [hok, if_true] at hacc
            rcases List.mem_append.mp hacc with h1 | h2
            · exact Or.inl h1
            · exact Or.inr ⟨u.tokenAddress, by simpa using h2⟩
          · simp only [hok, Bool.false_eq_true, if_false] at hacc
            rcases List.mem_append.mp hacc with h1 | h2
            · exact Or.inl h1
            · exact Or.inr ⟨u.tokenAddress, by simpa using h2⟩
        · rw [if_neg hx] at hacc
          exact Or.inl hacc
      · exact Or.inr hsell

theorem mem_trades_correctFinish (cfg : Config) (x : String)
    (rawPrice : Option ℚ) (now : Nat) (swept : Store × List Trade) (e : Trade)
    (he : e ∈ swept.2) : e ∈ (correctFinish cfg x rawPrice now swept).2 := by
  unfold correctFinish
  cases hg : dbGetToken swept.1 x with
  | some r => exact he
  | none =>
      cases hp : getCurrentPrice rawPrice with
      | none => exact he
      | some p => exact List.mem_append_left _ he

theorem correctFinish_none (cfg : Config) (x : String) (rawPrice : Option ℚ)
    (now : Nat) (swept : Store × List Trade)
    (hraw : getCurrentPrice rawPrice = none) :
    correctFinish cfg x rawPrice now swept = swept := by
  unfold correctFinish
  cases hg : dbGetToken swept.1 x with
  | some r => rfl
  | none => rw [hraw]

theorem dbGetToken_correctFinish_of_ne (cfg : Config) (x : String)
    (rawPrice : Option ℚ) (now : Nat) (swept : Store × List Trade)
    (b : String) (hbx : b ≠ x) :
    dbGetToken (correctFinish cfg x rawPrice now swept).1 b =
      dbGetToken swept.1 b := by
  unfold correctFinish
  cases hg : dbGetToken swept.1 x with
  | some r => rfl
  | none =>
      cases hp : getCurrentPrice rawPrice with
      | none => rfl
      | some p =>
          show dbGetToken (monitorAddToken swept.1 x p now) b =
            dbGetToken swept.1 b
          unfold monitorAddToken
          rw [dbAddToken_of_absent _ _ hg, dbGetToken_append_single]
          have hxb : ¬ (x = b) := Ne.symm hbx
          simp [hxb]

/-- Counterexample to claim C7 as stated, at two concrete inputs.  First:
the designated token `X` has no store record but its price lookup fails, so
`X` is neither enrolled nor bought — refuting the unconditional "X is
enrolled as active and immediately bought" — while the sweep still sells and
deactivates the active token `Y`.  Second: with a throwing sell, `Y`'s sell
is dispatched but `Y` is not marked inactive — its record is unchanged and
still active — refuting the unconditional "dispatches a sell and marks it
inactive". -/
theorem c7_counterexample :
    (dbGetToken (setCorrectToken ⟨false⟩
      [{ tokenAddress := "Y", timestamp := 0, price := 1, lastCheck := 0,
         status := Status.active }]
      "X" (fun _ => true) none 3).1 "X" = none ∧
     Trade.buy "X" ∉ (setCorrectToken ⟨false⟩
      [{ tokenAddress := "Y", timestamp := 0, price := 1, lastCheck := 0,
         status := Status.active }]
      "X" (fun _ => true) none 3).2 ∧
     dbGetToken (setCorrectToken ⟨false⟩
      [{ tokenAddress := "Y", timestamp := 0, price := 1, lastCheck := 0,
         status := Status.active }]
      "X" (fun _ => true) none 3).1 "Y" =
      some { tokenAddress := "Y", timestamp := 0, price := 1, lastCheck := 3,
             status := Status.inactive }) ∧
    ((setCorrectToken ⟨false⟩
      [{ tokenAddress := "Y", timestamp := 0, price := 1, lastCheck := 0,
         status := Status.active }]
      "X" (fun _ => false) none 3).2 = [Trade.sell "Y"] ∧
     dbGetToken (setCorrectToken ⟨false⟩
      [{ tokenAddress := "Y", timestamp := 0, price := 1, lastCheck := 0,
         status := Status.active }]
      "X" (fun _ => false) none 3).1 "Y" =
      some { tokenAddress := "Y", timestamp := 0, price := 1, lastCheck := 0,
             status := Status.active }) := by
  decide

/-- Claim C7 (amended): unconditionally, the sweep dispatches a sell for
every active token whose address differs from the designated one; a
successful sell marks that token inactive, while a failing sell leaves its
record unchanged (still active) and does not prevent processing of the
remaining tokens or the subsequent buy; and when the designated token has no
store record, it is enrolled as active and immediately bought provided its
price lookup succeeds (returns a non-null price), while a failing lookup
skips both the enrollment and the buy. -/
theorem c7_amended (cfg : Config) (s : Store) (x : String)
    (sellOk : String → Bool) (rawPrice : Option ℚ) (now : Nat) :
    (∀ t ∈ dbGetActiveTokens s, t.tokenAddress ≠ x →
      Trade.sell t.tokenAddress ∈
        (setCorrectToken cfg s x sellOk rawPrice now).2 ∧
      (sellOk t.tokenAddress = true →
        statusAt (setCorrectToken cfg s x sellOk rawPrice now).1
          t.tokenAddress = some Status.inactive) ∧
      (sellOk t.tokenAddress = false →
        dbGetToken (setCorrectToken cfg s x sellOk rawPrice now).1
          t.tokenAddress = dbGetToken s t.tokenAddress)) ∧
    (∀ p : ℚ, dbGetToken s x = none → getCurrentPrice rawPrice = some p →
      Trade.buy x ∈ (setCorrectToken cfg s x sellOk rawPrice now).2 ∧
      dbGetToken (setCorrectToken cfg s x sellOk rawPrice now).1 x =
        some { tokenAddress := x, timestamp := now, price := p,
               lastCheck := now, status := Status.active }) ∧
    (dbGetToken s x = none → getCurrentPrice rawPrice = none →
      dbGetToken (setCorrectToken cfg s x sellOk rawPrice now).1 x = none ∧
      Trade.buy x ∉ (setCorrectToken cfg s x sellOk rawPrice now).2) := by
  unfold setCorrectToken
  refine ⟨?_, ?_, ?_⟩
  · intro t ht htx
    refine ⟨?_, ?_, ?_⟩
    · apply mem_trades_correctFinish
      exact sell_mem_sweepFold x sellOk now (dbGetActiveTokens s) (s, []) t
        ht htx
    · intro hok
      apply statusAt_correctFinish_inactive
      exact sweepFold_sold_inactive x sellOk now (dbGetActiveTokens s)
        (s, []) t ht htx hok
        (dbGetToken_isSome_of_mem s t (List.mem_of_mem_filter ht))
    · intro hnok
      rw [dbGetToken_correctFinish_of_ne cfg x rawPrice now _
        t.tokenAddress htx]
      exact sweepFold_not_sold_unchanged x sellOk now (dbGetActiveTokens s)
        (s, []) t.tokenAddress hnok htx
  · intro p habs hgp
    have hswept : dbGetToken
        ((dbGetActiveTokens s).foldl (sweepStep x sellOk now) (s, [])).1 x =
        none :=
      dbGetToken_sweepFold_none x sellOk now (dbGetActiveTokens s) (s, [])
        x habs
    rw [correctFinish_absent cfg x rawPrice now _ p hswept hgp]
    constructor
    · exact List.mem_append_right _ (List.mem_singleton_self _)
    · show dbGetToken (monitorAddToken
        ((dbGetActiveTokens s).foldl (sweepStep x sellOk now) (s, [])).1
        x p now) x = _
      unfold monitorAddToken
      rw [dbAddToken_of_absent _ _ hswept, dbGetToken_append_single, hswept]
      simp
  · intro habs hraw
    have hswept : dbGetToken
        ((dbGetActiveTokens s).foldl (sweepStep x sellOk now) (s, [])).1 x =
        none :=
      dbGetToken_sweepFold_none x sellOk now (dbGetActiveTokens s) (s, [])
        x habs
    rw [correctFinish_none cfg x rawPrice now _ hraw]
    constructor
    · exact hswept
    · intro hmem
      rcases sweepFold_trades_sells x sellOk now (dbGetActiveTokens s)
        (s, []) _ hmem with h1 | ⟨b, hb⟩
      · simp at h1
      · exact Trade.noConfusion hb

/-- Witness for the amended C7: `Y` is active with a succeeding sell, `X`
absent with price lookup 2: `Y`'s sell is dispatched and `Y` is marked
inactive, `X` is enrolled and bought. -/
theorem c7_amended_witness :
    Trade.sell "Y" ∈ (setCorrectToken ⟨false⟩
      [{ tokenAddress := "Y", timestamp := 0, price := 1, lastCheck := 0,
         status := Status.active }]
      "X" (fun _ => true) (some 2) 3).2 ∧
    statusAt (setCorrectToken ⟨false⟩
      [{ tokenAddress := "Y", timestamp := 0, price := 1, lastCheck := 0,
         status := Status.active }]
      "X" (fun _ => true) (some 2) 3).1 "Y" = some Status.inactive ∧
    Trade.buy "X" ∈ (setCorrectToken ⟨false⟩
      [{ tokenAddress := "Y", timestamp := 0, price := 1, lastCheck := 0,
         status := Status.active }]
      "X" (fun _ => true) (some 2) 3).2 ∧
    dbGetToken (setCorrectToken ⟨false⟩
      [{ tokenAddress := "Y", timestamp := 0, price := 1, lastCheck := 0,
         status := Status.active }]
      "X" (fun _ => true) (some 2) 3).1 "X" =
      some { tokenAddress := "X", timestamp := 3, price := 2, lastCheck := 3,
             status := Status.active } :=
  ⟨((c7_amended ⟨false⟩
      [{ tokenAddress := "Y", timestamp := 0, price := 1, lastCheck := 0,
         status := Status.active }]
      "X" (fun _ => true) (some 2) 3).1
      { tokenAddress := "Y", timestamp := 0, price := 1, lastCheck := 0,
        status := Status.active } (by decide) (by decide)).1,
   ((c7_amended ⟨false⟩
      [{ tokenAddress := "Y", timestamp := 0, price := 1, lastCheck := 0,
         status := Status.active }]
      "X" (fun _ => true) (some 2) 3).1
      { tokenAddress := "Y", timestamp := 0, price := 1, lastCheck := 0,
        status := Status.active } (by decide) (by decide)).2.1 rfl,
   ((c7_amended ⟨false⟩
      [{ tokenAddress := "Y", timestamp := 0, price := 1, lastCheck := 0,
         status := Status.active }]
      "X" (fun _ => true) (some 2) 3).2.1 2 (by decide) (by decide)).1,
   ((c7_amended ⟨false⟩
      [{ tokenAddress := "Y", timestamp := 0, price := 1, lastCheck := 0,
         status := Status.active }]
      "X" (fun _ => true) (some 2) 3).2.1 2 (by decide) (by decide)).2⟩

/-! ## C8: simulation mode -/

/-- Counterexample to claim C8 as stated: with `simulation_mode` set, the
signal-driven path (`processTransaction`) dispatches nothing, but the
poll-cycle buy trigger still dispatches a buy — `buyToken` never consults
the configuration. -/
theorem c8_counterexample :
    processTransaction ⟨true⟩ "A" = [] ∧
    (pollSweep ⟨true⟩
      [{ tokenAddress := "A", timestamp := 0, price := 1, lastCheck := 0,
         status := Status.active }]
      (fun _ => some 4) (fun _ => false) 1).2 = [Trade.buy "A"] := by
  constructor
  · decide
  · have htr : (pollSweep ⟨true⟩
        [{ tokenAddress := "A", timestamp := 0, price := 1, lastCheck := 0,
           status := Status.active }]
        (fun _ => some 4) (fun _ => false) 1).2 =
        (checkToken ⟨true⟩
          [{ tokenAddress := "A", timestamp := 0, price := 1, lastCheck := 0,
             status := Status.active }]
          { tokenAddress := "A", timestamp := 0, price := 1, lastCheck := 0,
            status := Status.active }
          (some 4) false 1).2 := rfl
    rw [htr, checkToken_trades, getCurrentPrice_of_ne 4 (by norm_num)]
    norm_num

/-- Claim C8 (amended): when `simulation_mode` is set, the signal-driven
transaction path dispatches no trade, but the monitor paths ignore the
option: the poll-cycle buy trigger and the correct-token sweep dispatch
trades regardless of `simulation_mode`. -/
theorem c8_amended (cfg : Config) (h : cfg.simulation_mode = true) :
    (∀ a : String, processTransaction cfg a = []) ∧
    (pollSweep cfg
      [{ tokenAddress := "A", timestamp := 0, price := 1, lastCheck := 0,
         status := Status.active }]
      (fun _ => some 4) (fun _ => false) 1).2 = [Trade.buy "A"] ∧
    (setCorrectToken cfg
      [{ tokenAddress := "Y", timestamp := 0, price := 1, lastCheck := 0,
         status := Status.active }]
      "X" (fun _ => true) none 1).2 = [Trade.sell "Y"] := by
  obtain ⟨sm⟩ := cfg
  have hsm : sm = true := h
  subst hsm
  refine ⟨?_, ?_, by decide⟩
  · intro a
    unfold processTransaction
    by_cases ha : a = ""
    · rw [if_pos ha]
    · rw [if_neg ha, if_pos rfl]
  · have htr : (pollSweep ⟨true⟩
        [{ tokenAddress := "A", timestamp := 0, price := 1, lastCheck := 0,
           status := Status.active }]
        (fun _ => some 4) (fun _ => false) 1).2 =
        (checkToken ⟨true⟩
          [{ tokenAddress := "A", timestamp := 0, price := 1, lastCheck := 0,
             status := Status.active }]
          { tokenAddress := "A", timestamp := 0, price := 1, lastCheck := 0,
            status := Status.active }
          (some 4) false 1).2 := rfl
    rw [htr, checkToken_trades, getCurrentPrice_of_ne 4 (by norm_num)]
    norm_num

/-- Witness for the amended C8 at the concrete configuration. -/
theorem c8_amended_witness :
    (∀ a : String, processTransaction ⟨true⟩ a = []) ∧
    (pollSweep ⟨true⟩
      [{ tokenAddress := "A", timestamp := 0, price := 1, lastCheck := 0,
         status := Status.active }]
      (fun _ => some 4) (fun _ => false) 1).2 = [Trade.buy "A"] ∧
    (setCorrectToken ⟨true⟩
      [{ tokenAddress := "Y", timestamp := 0, price := 1, lastCheck := 0,
         status := Status.active }]
      "X" (fun _ => true) none 1).2 = [Trade.sell "Y"] :=
  c8_amended ⟨true⟩ rfl

/-! ## Signal-channel address extraction
(dex-analyse-manager.service.ts, `DexAnalyseManagerService`)

Messages are modelled as lists of characters.  The regular expression
`/^[1-9A-HJ-NP-Za-km-z]{44}$/` becomes a full-match predicate over a
44-character base58 line; `message.split('\n')` becomes `splitLines`,
`line.trim()` becomes `trimChars`, and the loop over lines returning the
first trimmed full match becomes `findAddressLine`.  The allow-listed
channel check of `analyseTelegramMessage` gates the extraction, and the
returned `Option` is the emitted discovery event (`none`: silent no-op). -/

def isBase58Char (c : Char) : Bool :=
  ('1' ≤ c && c ≤ '9') || ('A' ≤ c && c ≤ 'H') || ('J' ≤ c && c ≤ 'N') ||
  ('P' ≤ c && c ≤ 'Z') || ('a' ≤ c && c ≤ 'k') || ('m' ≤ c && c ≤ 'z')

def solanaAddressFullMatch (l : List Char) : Bool :=
  l.length == 44 && l.all isBase58Char

def isWhitespaceChar (c : Char) : Bool :=
  c == ' ' || c == '\t' || c == '\n' || c == '\r'

def trimChars (l : List Char) : List Char :=
  ((l.dropWhile isWhitespaceChar).reverse.dropWhile isWhitespaceChar).reverse

def splitLines : List Char → List (List Char)
  | [] => [[]]
  | c :: cs =>
    match splitLines cs with
    | [] => [[]]
    | l :: ls => if c = '\n' then [] :: l :: ls else (c :: l) :: ls

def findAddressLine : List (List Char) → Option (List Char)
  | [] => none
  | line :: rest =>
    if solanaAddressFullMatch (trimChars line) then some (trimChars line)
    else findAddressLine rest

def extractSolanaAddress (msg : List Char) : Option (List Char) :=
  findAddressLine (splitLines msg)

def cryptoPumpClubChannelId : List Char := "1625691880".data

def cryptoBotTestChannelId : List Char := "1629064884".data

def analyseTelegramMessage (channelId : List Char) (msg : List Char) :
    Option (List Char) :=
  if channelId = cryptoPumpClubChannelId ∨ channelId = cryptoBotTestChannelId
  then extractSolanaAddress msg
  else none

theorem findAddressLine_eq_find (lines : List (List Char)) :
    findAddressLine lines = (lines.map trimChars).find? solanaAddressFullMatch := by
  induction lines with
  | nil => rfl
  | cons line rest ih =>
      simp only [findAddressLine, List.map_cons]
      by_cases h : solanaAddressFullMatch (trimChars line) = true
      · rw [if_pos h, List.find?_cons_of_pos _ h]
      · rw [if_neg h, List.find?_cons_of_neg _ h, ih]

/-- Claim C9: for a message from an allow-listed channel, the extraction is
line-oriented over the fixed-length (44-character) base58 address grammar:
the result is `some a` exactly when `a` is the first trimmed line that fully
matches the grammar, and when no line fully matches the result is `none` and
no discovery event is emitted. -/
theorem c9_line_oriented_extraction (channelId msg : List Char)
    (hc : channelId = cryptoPumpClubChannelId ∨
      channelId = cryptoBotTestChannelId) :
    (∀ a, analyseTelegramMessage channelId msg = some a ↔
      (solanaAddressFullMatch a = true ∧
        ∃ pre post, (splitLines msg).map trimChars = pre ++ a :: post ∧
          ∀ l ∈ pre, solanaAddressFullMatch l = false)) ∧
    (analyseTelegramMessage channelId msg = none ↔
      ∀ line ∈ splitLines msg,
        solanaAddressFullMatch (trimChars line) = false) := by
  have hana : analyseTelegramMessage channelId msg = extractSolanaAddress msg := by
    unfold analyseTelegramMessage
    rw [if_pos hc]
  constructor
  · intro a
    rw [hana]
    unfold extractSolanaAddress
    rw [findAddressLine_eq_find, List.find?_eq_some]
    constructor
    · rintro ⟨hpa, pre, post, hsplit, hall⟩
      exact ⟨hpa, pre, post, hsplit, fun l hl => by simpa using hall l hl⟩
    · rintro ⟨hpa, pre, post, hsplit, hall⟩
      exact ⟨hpa, pre, post, hsplit, fun l hl => by simpa using hall l hl⟩
  · rw [hana]
    unfold extractSolanaAddress
    rw [findAddressLine_eq_find, List.find?_eq_none]
    constructor
    · intro h line hline
      have := h (trimChars line) (List.mem_map.mpr ⟨line, hline, rfl⟩)
      simpa using this
    · intro h l hl
      obtain ⟨line, hline, hfl⟩ := List.mem_map.mp hl
      subst hfl
      rw [h line hline]
      simp

/-- Witness for C9 at a concrete allow-listed channel and message. -/
theorem c9_witness :
    (∀ a, analyseTelegramMessage cryptoPumpClubChannelId
        "hello world".data = some a ↔
      (solanaAddressFullMatch a = true ∧
        ∃ pre post,
          (splitLines "hello world".data).map trimChars = pre ++ a :: post ∧
          ∀ l ∈ pre, solanaAddressFullMatch l = false)) ∧
    (analyseTelegramMessage cryptoPumpClubChannelId "hello world".data =
        none ↔
      ∀ line ∈ splitLines "hello world".data,
        solanaAddressFullMatch (trimChars line) = false) :=
  c9_line_oriented_extraction cryptoPumpClubChannelId "hello world".data
    (Or.inl rfl)

end SolanaTokenSniper
